import Mathlib

/-!
Verification of the semantix indexing pipeline core.

This file shallowly embeds the repository's indexing core — the repository
status state machine (`domains/repos`), the atomic claim query
(`db/queries/repos.sql`, `ClaimPendingRepo`), the pipeline orchestrator
(`domains/indexing/orchestrator.go`, `IndexRepo`), the file walker
(`libs/gitrepo/client.go`, `ListFiles`) and the diff classification — as
executable Lean definitions, and proves the spec's claims about them.

The database is modelled as reliable in-memory state (lists of rows); all
external effects (git clone, file system, chunker, embedding service, vector
store) are modelled by an `Oracle` of explicit results, so each run of the
orchestrator is a pure function of the oracle and the starting state.
-/

namespace Semantix

/-- Repository status, from `domains/repos/status.go`. -/
inductive Status
  | pending
  | cloning
  | indexing
  | completed
  | failed
deriving DecidableEq, Repr

/-- `Status.IsActive` from `domains/repos/status.go`: cloning or indexing. -/
def Status.isActive : Status → Bool
  | .cloning => true
  | .indexing => true
  | _ => false

/-- Repository row, the columns of the `repos` table that the indexing core
reads and writes (`db/schema/repos.sql`, `domains/repos/models.go`). -/
structure Repo where
  id : Nat
  status : Status
  error : Option String
  lastCommitSha : Option String
  created : Nat
  updated : Nat
deriving DecidableEq, Repr

/-- The three repo-mutating operations the indexing core issues
(`domains/repos/repos.go`): `UpdateStatus` (runs `UpdateRepoStatus` with the
`Error` parameter left at its zero value, i.e. SQL NULL), `SetError` (same
query with status `failed` and a non-null error), and `UpdateAfterClone`
(runs `UpdateRepoAfterClone`, which does not touch the error column). -/
inductive RepoOp
  | updateStatus (status : Status)
  | setError (msg : String)
  | updateAfterClone (sha : String)
deriving DecidableEq, Repr

/-- Effect of one repo-mutating operation on a repository row, following the
`UPDATE` statements in `db/queries/repos.sql`. -/
def applyRepoOp : RepoOp → Nat → Repo → Repo
  | .updateStatus st, now, r => { r with status := st, error := none, updated := now }
  | .setError m, now, r => { r with status := .failed, error := some m, updated := now }
  | .updateAfterClone sha, now, r =>
      { r with status := .indexing, lastCommitSha := some sha, updated := now }

/-! ## The claim query (`ClaimPendingRepo`) -/

/-- One step of scanning the table for the claim query's inner select:
keep the pending row with the smallest `created` seen so far. -/
def pendingStep (acc : Option Repo) (r : Repo) : Option Repo :=
  if r.status = .pending then
    match acc with
    | none => some r
    | some b => if r.created < b.created then some r else some b
  else acc

/-- The repo selected by the claim query's inner
`SELECT id FROM repos WHERE status = 'pending' ORDER BY created ASC LIMIT 1`:
a pending row of minimal `created` (first such row on ties). -/
def oldestPending (rs : List Repo) : Option Repo :=
  rs.foldl pendingStep none

/-- Result of `repos.ClaimPending` (`domains/repos/repos.go`): either a claimed
row or the typed no-work result (`repos.ErrNotFound`, mapped from
`pgx.ErrNoRows`), never a generic error. -/
inductive ClaimResult
  | claimed (r : Repo)
  | noWork
deriving DecidableEq, Repr

/-- `ClaimPendingRepo` (`db/queries/repos.sql`): a single conditional
`UPDATE repos SET status = 'indexing', updated = $1 WHERE id = (SELECT …)`.
Selection of the oldest pending row and its transition to `indexing` happen in
the same atomic step; the function returns the updated row (`RETURNING *`)
together with the post-update table. -/
def claimPendingRepo (now : Nat) (rs : List Repo) : ClaimResult × List Repo :=
  match oldestPending rs with
  | none => (.noWork, rs)
  | some r =>
      (.claimed { r with status := .indexing, updated := now },
       rs.map fun x =>
         if x.id = r.id then { x with status := .indexing, updated := now } else x)

/-! ## Orchestrator data model (`domains/indexing/orchestrator.go`) -/

/-- `gitrepo.FileInfo` (`libs/gitrepo/client.go`): per-file stat result with the
content digest (`Shasum`), size and detected language. -/
structure FileInfo where
  shasum : String
  sizeBytes : Nat
  language : String
deriving DecidableEq, Repr

/-- `chunking.Chunk` (`libs/chunking/chunker.go`): one chunk of a file. -/
structure Chunk where
  content : String
  startLine : Nat
  endLine : Nat
  index : Nat
  language : String
deriving DecidableEq, Repr

/-- A row of the `files` table (`db/schema`, sqlc `db.File`), the columns the
orchestrator reads and writes. -/
structure DBFile where
  id : Nat
  repoId : Nat
  path : String
  shasum : String
  language : String
  sizeBytes : Nat
  chunkCount : Nat
deriving DecidableEq, Repr

/-- `milvus.Chunk` (`libs/milvus/client.go`): one point in the vector store. -/
structure VectorChunk where
  repoId : Nat
  fileId : Nat
  chunkIndex : Nat
  filePath : String
  content : String
  startLine : Nat
  endLine : Nat
  language : String
  embedding : List Int
deriving DecidableEq, Repr

/-- `countLines` (`domains/indexing/orchestrator.go`): one plus the number of
newline characters. -/
def countLines (s : String) : Nat :=
  1 + s.toList.countP (fun c => c == '\n')

/-- Results of every external effect one `IndexRepo` run performs, so the run
is a pure function of this oracle and the starting state: git provider lookup
and clone, metadata extraction, the file walk, and the per-path stat / read /
chunk / embed / vector-delete / db-upsert / vector-insert outcomes. -/
structure Oracle where
  providerFound : Bool
  cloneResult : Except String Unit
  metadataResult : Except String String
  listFilesResult : Except String (List String)
  fileInfoResult : String → Except String FileInfo
  readFileResult : String → Except String String
  chunkFileResult : String → Except String (List Chunk)
  embedResult : List String → Except String (List (List Int))
  deleteResult : Nat → Except String Unit
  upsertResult : String → Except String Unit
  insertResult : String → Except String Unit

/-- Persistent and instrumented state of one repository's pipeline: its repo
row, its file rows, the vector store contents, the id sequence for new file
rows, plus the run-local counters of `IndexRepo` (`filesProcessed`,
`filesSkipped`, `chunksCreated`), a count of embedding-service calls, and the
trace of statuses written during the current run. -/
structure RunState where
  repo : Repo
  files : List DBFile
  vectors : List VectorChunk
  nextFileId : Nat
  embedCalls : Nat
  filesProcessed : Nat
  filesSkipped : Nat
  chunksCreated : Nat
  statusTrace : List Status
deriving DecidableEq, Repr

/-- Apply one repo-mutating operation during a run, recording the status it
writes in the run's trace. -/
def RunState.applyOp (s : RunState) (op : RepoOp) (now : Nat) : RunState :=
  { s with
    repo := applyRepoOp op now s.repo,
    statusTrace := s.statusTrace ++ [(applyRepoOp op now s.repo).status] }

/-- The orchestrator's in-memory index of persisted files
(`existingFileMap[f.Path]` built from `ListFilesByRepoID`, which is scoped to
`WHERE repo_id = $1`). -/
def lookupFile (files : List DBFile) (rid : Nat) (path : String) : Option DBFile :=
  files.find? fun f => f.repoId == rid && f.path == path

/-- The row produced by `UpsertFile`'s `DO UPDATE` arm for an existing row:
digest, language, size and chunk count are replaced, the id is kept. -/
def updatedFile (g : DBFile) (info : FileInfo) (chunkCount : Nat) : DBFile :=
  { g with shasum := info.shasum, language := info.language,
           sizeBytes := info.sizeBytes, chunkCount := chunkCount }

/-- The row produced by `UpsertFile`'s `INSERT` arm for a new path. -/
def freshFile (id rid : Nat) (path : String) (info : FileInfo)
    (chunkCount : Nat) : DBFile :=
  { id := id, repoId := rid, path := path, shasum := info.shasum,
    language := info.language, sizeBytes := info.sizeBytes,
    chunkCount := chunkCount }

/-- `UpsertFile` (sqlc, `INSERT … ON CONFLICT (repo_id, path) DO UPDATE SET
shasum, language, size_bytes, chunk_count, …`): update the row for
`(repo_id, path)` keeping its id, or insert a fresh row; returns the resulting
row (`RETURNING *`). -/
def upsertFile (s : RunState) (path : String) (info : FileInfo)
    (chunkCount : Nat) : RunState × DBFile :=
  match lookupFile s.files s.repo.id path with
  | some f =>
      ({ s with
          files := s.files.map fun g =>
            if g.repoId = s.repo.id ∧ g.path = path then
              updatedFile g info chunkCount
            else g },
       updatedFile f info chunkCount)
  | none =>
      let f := freshFile s.nextFileId s.repo.id path info chunkCount
      ({ s with files := s.files ++ [f], nextFileId := s.nextFileId + 1 }, f)

/-- The chunk list the loop body works with (`orchestrator.go` lines 156–169):
the chunker's output, or — when the chunker errors — the whole file as a
single fallback chunk. -/
def chunksFor (o : Oracle) (path content : String) (info : FileInfo) :
    List Chunk :=
  match o.chunkFileResult path with
  | .ok cs => cs
  | .error _ =>
      [{ content := content, startLine := 1, endLine := countLines content,
         index := 0, language := info.language }]

/-- The read → chunk → embed → db-upsert → vector-insert tail of the per-file
loop body (`orchestrator.go` lines 149–237): a read failure skips the file;
zero chunks skip the file; an embed, upsert or insert failure skips the file;
on success the file row is upserted, the chunk points are inserted, and the
run counters are bumped. -/
def indexFileContent (o : Oracle) (s : RunState) (path : String)
    (info : FileInfo) : RunState :=
  match o.readFileResult path with
  | .error _ => s
  | .ok content =>
    let chunks := chunksFor o path content info
    if chunks.length = 0 then s
    else
      let s := { s with embedCalls := s.embedCalls + 1 }
      match o.embedResult (chunks.map Chunk.content) with
      | .error _ => s
      | .ok es =>
        match o.upsertResult path with
        | .error _ => s
        | .ok _ =>
          let sf := upsertFile s path info chunks.length
          match o.insertResult path with
          | .error _ => sf.1
          | .ok _ =>
            { sf.1 with
              vectors := sf.1.vectors ++
                List.zipWith
                  (fun (c : Chunk) (e : List Int) =>
                    { repoId := s.repo.id, fileId := sf.2.id,
                      chunkIndex := c.index, filePath := path,
                      content := c.content, startLine := c.startLine,
                      endLine := c.endLine, language := info.language,
                      embedding := e })
                  chunks es,
              filesProcessed := sf.1.filesProcessed + 1,
              chunksCreated := sf.1.chunksCreated + chunks.length }

/-- One iteration of the per-file loop (`orchestrator.go` lines 123–238):
a stat failure skips the file; a persisted row with an equal digest counts the
file as skipped; a differing digest first deletes the file's old vector points
(a failed delete is only a warning) and then reindexes the content; an
unpersisted path goes straight to content indexing. -/
def processOneFile (o : Oracle) (s : RunState) (path : String) : RunState :=
  match o.fileInfoResult path with
  | .error _ => s
  | .ok info =>
    match lookupFile s.files s.repo.id path with
    | some existing =>
        if existing.shasum = info.shasum then
          { s with filesSkipped := s.filesSkipped + 1 }
        else
          let s1 :=
            match o.deleteResult existing.id with
            | .ok _ =>
                { s with vectors := s.vectors.filter fun v => v.fileId != existing.id }
            | .error _ => s
          indexFileContent o s1 path info
    | none => indexFileContent o s path info

/-- The error returned by `IndexRepo` for each early-return site. -/
inductive RunError
  | unsupportedProvider
  | cloneFailed (msg : String)
  | metadataFailed (msg : String)
  | listFilesFailed (msg : String)
deriving DecidableEq, Repr

/-- Reset the run-local counters and the status trace: `IndexRepo` declares
`filesProcessed`, `filesSkipped`, `chunksCreated` as fresh locals each run, and
the trace records only the current run's writes. -/
def startRunState (s : RunState) : RunState :=
  { s with embedCalls := 0, filesProcessed := 0, filesSkipped := 0,
           chunksCreated := 0, statusTrace := [] }

/-- `IndexRepo` (`domains/indexing/orchestrator.go`): set status `cloning`,
resolve the provider, clone, extract metadata, record the commit and enter
`indexing` (`UpdateAfterClone`), list files, run the per-file loop over the
walk order, and finish with status `completed`. Each failing pre-loop stage
persists a categorised error via `SetError` and returns; per-file failures
never do. Returns the final state and the run's error, if any. -/
def indexRepo (o : Oracle) (now : Nat) (s0 : RunState) :
    RunState × Option RunError :=
  let s := (startRunState s0).applyOp (.updateStatus .cloning) now
  if o.providerFound then
    match o.cloneResult with
    | .error e =>
        (s.applyOp (.setError ("clone failed: " ++ e)) now, some (.cloneFailed e))
    | .ok _ =>
      match o.metadataResult with
      | .error e =>
          (s.applyOp (.setError ("metadata extraction failed: " ++ e)) now,
           some (.metadataFailed e))
      | .ok sha =>
        let s := s.applyOp (.updateAfterClone sha) now
        match o.listFilesResult with
        | .error e =>
            (s.applyOp (.setError ("file listing failed: " ++ e)) now,
             some (.listFilesFailed e))
        | .ok files =>
          let s := files.foldl (processOneFile o) s
          (s.applyOp (.updateStatus .completed) now, none)
  else
    (s.applyOp (.setError "unsupported git provider") now, some .unsupportedProvider)

/-! ## Diff classification -/

/-- Diff categories named by the spec (§4.4). -/
inductive DiffClass
  | added
  | changed
  | unchanged
  | deleted
deriving DecidableEq, Repr

/-- Digest of a persisted path in the old `(path, digest)` set
(the orchestrator's `existingFileMap` lookup). -/
def lookupDigest (old : List (String × String)) (p : String) : Option String :=
  (old.find? fun e => e.1 == p).map Prod.snd

/-- The classification decision the per-file loop makes for one walked path
(`orchestrator.go` lines 137–147): no persisted row → added; persisted with a
different digest → changed; equal digest → unchanged. The loop body has no
branch producing `deleted`. -/
def classifyPath (old : List (String × String)) (p d : String) : DiffClass :=
  match lookupDigest old p with
  | none => .added
  | some d0 => if d0 = d then .unchanged else .changed

/-- The diff classification the code computes for a run: the per-file loop
runs once per walked path, so only walked paths receive a category; persisted
paths absent from the walk are never visited (`IndexRepo` contains no deletion
pass and never calls `DeleteFile`). -/
def diffClassification (old walked : List (String × String)) :
    List (String × DiffClass) :=
  walked.map fun pd => (pd.1, classifyPath old pd.1 pd.2)

/-! ## File walker (`libs/gitrepo/client.go`, `ListFiles`) -/

instance exceptDecEq {e a : Type} [DecidableEq e] [DecidableEq a] :
    DecidableEq (Except e a) := fun x y =>
  match x, y with
  | .error u, .error v =>
      if h : u = v then isTrue (by rw [h])
      else isFalse (fun hh => by cases hh; exact h rfl)
  | .error _, .ok _ => isFalse (fun hh => by cases hh)
  | .ok _, .error _ => isFalse (fun hh => by cases hh)
  | .ok u, .ok v =>
      if h : u = v then isTrue (by rw [h])
      else isFalse (fun hh => by cases hh; exact h rfl)

/-- `strings.HasPrefix(name, ".")`: the name's first character is a dot. -/
def hasDotPrefix (name : String) : Bool :=
  match name.toList with
  | [] => false
  | c :: _ => c == '.'

/-- `strings.ToLower`, character by character. -/
def lowerString (s : String) : String :=
  String.mk (s.toList.map Char.toLower)

/-- `isSkippedDir`: directory names pruned from the walk. -/
def skippedDirs : List String :=
  ["node_modules", "vendor", "dist", "build", "target", "__pycache__",
   ".git", ".svn", ".hg", "coverage", ".idea", ".vscode", "bin", "obj",
   ".cache", ".pytest_cache", ".mypy_cache", "venv", ".venv", "env", ".env",
   "deps", "_deps", "third_party", "external", "packages", ".nuget",
   ".gradle", ".cargo", "cmake-build", "out", "output", ".terraform",
   ".next", ".turbo"]

def isSkippedDir (name : String) : Bool :=
  skippedDirs.contains name

/-- `filepath.Ext`: the suffix beginning at the final dot, empty if none. -/
def fileExt (name : String) : String :=
  if name.toList.contains '.' then
    String.mk ('.' :: (name.toList.reverse.takeWhile (fun c => c != '.')).reverse)
  else ""

/-- `isIndexableFile`: the code-file extension allowlist. -/
def codeExtensions : List String :=
  [".go", ".py", ".js", ".ts", ".jsx", ".tsx", ".rs", ".java", ".kt",
   ".scala", ".c", ".cpp", ".cc", ".cxx", ".h", ".hpp", ".cs", ".rb",
   ".php", ".swift", ".m", ".mm", ".lua", ".pl", ".pm", ".r", ".jl",
   ".ex", ".exs", ".erl", ".hrl", ".clj", ".cljs", ".hs", ".ml", ".mli",
   ".fs", ".fsx", ".dart", ".elm", ".vue", ".svelte", ".astro", ".sql",
   ".sh", ".bash", ".zsh", ".fish", ".ps1", ".bat", ".cmd", ".yaml",
   ".yml", ".toml", ".json", ".xml", ".html", ".htm", ".css", ".scss",
   ".sass", ".less", ".md", ".mdx", ".rst", ".txt", ".proto", ".graphql",
   ".gql", ".tf", ".tfvars", ".nix", ".zig", ".nim", ".v", ".sol", ".move"]

def isIndexableFile (path : String) : Bool :=
  codeExtensions.contains (lowerString (fileExt path))

/-- A node of the checkout as `filepath.Walk` visits it: each entry carries
the stat error the walk callback would receive for it (`some e` makes the
callback run with `err != nil`). -/
inductive FSNode
  | file (name : String) (size : Nat) (statError : Option String)
  | dir (name : String) (statError : Option String) (children : List FSNode)

mutual

/-- The walk callback of `ListFiles` on one node: a non-nil walk error is
returned as-is (which makes `filepath.Walk` abort the whole walk); hidden or
skip-listed directories are pruned (`filepath.SkipDir`); hidden, oversized or
non-indexable files are passed over; any other file contributes its relative
path. -/
def walkNode (maxSize : Nat) (pre : String) (n : FSNode) :
    Except String (List String) :=
  match n with
  | .file name size statErr =>
      match statErr with
      | some e => .error e
      | none =>
          if hasDotPrefix name then .ok []
          else if size > maxSize then .ok []
          else if isIndexableFile (pre ++ name) then .ok [pre ++ name]
          else .ok []
  | .dir name statErr children =>
      match statErr with
      | some e => .error e
      | none =>
          if hasDotPrefix name || isSkippedDir name then .ok []
          else walkSiblings maxSize (pre ++ name ++ "/") children

/-- Walk a sibling list in order; the first error aborts, dropping every path
already collected and every sibling not yet visited. -/
def walkSiblings (maxSize : Nat) (pre : String) (ns : List FSNode) :
    Except String (List String) :=
  match ns with
  | [] => .ok []
  | n :: rest =>
      match walkNode maxSize pre n with
      | .error e => .error e
      | .ok fs =>
          match walkSiblings maxSize pre rest with
          | .error e => .error e
          | .ok fs' => .ok (fs ++ fs')

end

/-- `ListFiles`: walk the checkout root and return the indexable relative
paths, or the first error the walk callback returned. -/
def listFiles (maxSize : Nat) (root : List FSNode) : Except String (List String) :=
  walkSiblings maxSize "" root

/-! ## Embedding cache

Modelled from the spec: the Embedding Cache component (spec §3, §4.3) has no
implementation in the source tree — the orchestrator calls the embedding
service directly on every batch, and no `embedding_cache` table, lookup or
store code exists outside a design document. The definitions below follow the
spec's words: entries are keyed by content digest and model identifier
("content-addressed and model-scoped — a cache hit is valid only if the
stored model identifier matches the requested model"); a hit increments the
use count and refreshes the last-used timestamp. -/
structure CacheEntry where
  digest : String
  model : String
  vector : List Int
  useCount : Nat
  lastUsed : Nat
deriving DecidableEq, Repr

/-- Modelled from the spec: `lookup(contentDigest, model) -> vector | miss`;
on a hit the entry's use count is incremented and its last-used timestamp
refreshed. -/
def cacheLookup (now : Nat) (c : List CacheEntry) (d m : String) :
    Option (List Int) × List CacheEntry :=
  match c.find? fun e => e.digest == d && e.model == m with
  | some e =>
      (some e.vector,
       c.map fun x =>
         if x.digest == d && x.model == m then
           { x with useCount := x.useCount + 1, lastUsed := now }
         else x)
  | none => (none, c)

/-- Modelled from the spec: `store(contentDigest, model, vector)` inserts the
entry for its content-digest + model key. -/
def cacheStore (now : Nat) (c : List CacheEntry) (d m : String) (v : List Int) :
    List CacheEntry :=
  { digest := d, model := m, vector := v, useCount := 1, lastUsed := now } ::
    c.filter fun e => !(e.digest == d && e.model == m)

/-! ## Concrete fixtures for witnesses and counterexamples -/

/-- A pending repository row. -/
def pendingRepo : Repo :=
  { id := 1, status := .pending, error := none, lastCommitSha := none,
    created := 0, updated := 0 }

/-- A completed repository row (no pending work). -/
def repoDone : Repo :=
  { id := 2, status := .completed, error := none, lastCommitSha := none,
    created := 3, updated := 4 }

/-- An oracle for a run whose clone step fails. -/
def oracleCloneFail : Oracle :=
  { providerFound := true,
    cloneResult := .error "authentication required",
    metadataResult := .ok "sha0",
    listFilesResult := .ok [],
    fileInfoResult := fun _ => .error "unused",
    readFileResult := fun _ => .error "unused",
    chunkFileResult := fun _ => .error "unused",
    embedResult := fun _ => .error "unused",
    deleteResult := fun _ => .ok (),
    upsertResult := fun _ => .ok (),
    insertResult := fun _ => .ok () }

/-- A starting run state whose repository was just claimed. -/
def claimedState : RunState :=
  { repo := { id := 1, status := .indexing, error := none, lastCommitSha := none,
              created := 0, updated := 0 },
    files := [], vectors := [], nextFileId := 1, embedCalls := 0,
    filesProcessed := 0, filesSkipped := 0, chunksCreated := 0, statusTrace := [] }

/-- An oracle for a run over one file whose chunker fails but every other
stage succeeds. -/
def oracleChunkFail : Oracle :=
  { providerFound := true,
    cloneResult := .ok (),
    metadataResult := .ok "sha1",
    listFilesResult := .ok ["main.go"],
    fileInfoResult := fun _ => .ok { shasum := "h1", sizeBytes := 12, language := "go" },
    readFileResult := fun _ => .ok "package main",
    chunkFileResult := fun _ => .error "parse error",
    embedResult := fun _ => .ok [[1]],
    deleteResult := fun _ => .ok (),
    upsertResult := fun _ => .ok (),
    insertResult := fun _ => .ok () }

/-- All per-file stages succeed for path `p` under oracle `o`: the stat, read,
vector-delete, embed, db-upsert and vector-insert calls return ok, and a
successful chunker call returns at least one chunk. -/
def stagesOk (o : Oracle) (p : String) : Prop :=
  (∃ i, o.fileInfoResult p = .ok i) ∧
  (∃ c, o.readFileResult p = .ok c) ∧
  (∀ cs, o.chunkFileResult p = .ok cs → cs ≠ []) ∧
  (∀ n, o.deleteResult n = .ok ()) ∧
  (∀ ts, ∃ es, o.embedResult ts = .ok es) ∧
  o.upsertResult p = .ok () ∧
  o.insertResult p = .ok ()

/-- A run state holding one persisted file whose digest differs from the
checkout, together with its old vector point. -/
def changedFileState : RunState :=
  { repo := { id := 1, status := .indexing, error := none, lastCommitSha := none,
              created := 0, updated := 0 },
    files := [{ id := 7, repoId := 1, path := "main.go", shasum := "old",
                language := "go", sizeBytes := 5, chunkCount := 2 }],
    vectors := [{ repoId := 1, fileId := 7, chunkIndex := 0, filePath := "main.go",
                  content := "previous", startLine := 1, endLine := 2,
                  language := "go", embedding := [9] }],
    nextFileId := 8, embedCalls := 0, filesProcessed := 0, filesSkipped := 0,
    chunksCreated := 0, statusTrace := [] }

/-! ## Helper lemmas about the claim query -/

/-- Case analysis for one `pendingStep`: the result is either the new row
(which is then pending) or the accumulator unchanged. -/
theorem pendingStep_cases (acc : Option Repo) (r : Repo) :
    (pendingStep acc r = some r ∧ r.status = .pending) ∨ pendingStep acc r = acc := by
  unfold pendingStep
  by_cases hr : r.status = .pending
  · cases acc with
    | none => exact Or.inl ⟨by simp [hr], hr⟩
    | some b =>
        by_cases hlt : r.created < b.created
        · exact Or.inl ⟨by simp [hr, hlt], hr⟩
        · exact Or.inr (by simp [hr, hlt])
  · exact Or.inr (by simp [hr])

theorem foldl_pendingStep_pending (rs : List Repo) :
    ∀ acc : Option Repo, (∀ a, acc = some a → a.status = .pending) →
      ∀ b, rs.foldl pendingStep acc = some b → b.status = .pending := by
  induction rs with
  | nil => intro acc hacc b hb; exact hacc b hb
  | cons r rs ih =>
      intro acc hacc b hb
      simp only [List.foldl_cons] at hb
      refine ih (pendingStep acc r) ?_ b hb
      intro a ha
      rcases pendingStep_cases acc r with ⟨heq, hp⟩ | heq
      · rw [heq] at ha; cases ha; exact hp
      · rw [heq] at ha; exact hacc a ha

theorem foldl_pendingStep_mem (rs : List Repo) :
    ∀ acc : Option Repo, ∀ b, rs.foldl pendingStep acc = some b →
      acc = some b ∨ b ∈ rs := by
  induction rs with
  | nil => intro acc b hb; exact Or.inl hb
  | cons r rs ih =>
      intro acc b hb
      simp only [List.foldl_cons] at hb
      rcases ih (pendingStep acc r) b hb with h | h
      · rcases pendingStep_cases acc r with ⟨heq, _⟩ | heq
        · rw [heq] at h; cases h; exact Or.inr (by simp)
        · rw [heq] at h; exact Or.inl h
      · exact Or.inr (by simp [h])

theorem foldl_pendingStep_min (rs : List Repo) :
    ∀ acc : Option Repo, ∀ b, rs.foldl pendingStep acc = some b →
      (∀ a, acc = some a → b.created ≤ a.created) ∧
      (∀ q ∈ rs, q.status = .pending → b.created ≤ q.created) := by
  induction rs with
  | nil =>
      intro acc b hb
      simp only [List.foldl_nil] at hb
      refine ⟨fun a ha => ?_, fun q hq => absurd hq (List.not_mem_nil q)⟩
      rw [hb] at ha; cases ha; exact le_refl _
  | cons r rs ih =>
      intro acc b hb
      simp only [List.foldl_cons] at hb
      have hmain := ih (pendingStep acc r) b hb
      have hstep : ∀ a, acc = some a → b.created ≤ a.created := by
        intro a ha
        unfold pendingStep at hmain
        by_cases hr : r.status = .pending
        · rw [ha] at hmain
          simp only [hr, if_true] at hmain
          by_cases hlt : r.created < a.created
          · have := hmain.1 r (by simp [hlt])
            exact le_of_lt (lt_of_le_of_lt this hlt)
          · have := hmain.1 a (by simp [hlt])
            exact this
        · rw [ha] at hmain
          simp only [hr, if_false] at hmain
          exact hmain.1 a rfl
      refine ⟨hstep, ?_⟩
      intro q hq hqp
      rcases List.mem_cons.mp hq with hq1 | hq2
      · subst hq1
        unfold pendingStep at hmain
        simp only [hqp, if_true] at hmain
        cases acc with
        | none => exact hmain.1 q rfl
        | some a =>
            by_cases hlt : q.created < a.created
            · exact hmain.1 q (by simp [hlt])
            · have hba := hmain.1 a (by simp [hlt])
              exact le_trans hba (le_of_not_lt hlt)
      · exact hmain.2 q hq2 hqp

/-- Any repo returned by `oldestPending` has status `pending`. -/
theorem oldestPending_pending {rs : List Repo} {r : Repo}
    (h : oldestPending rs = some r) : r.status = .pending :=
  foldl_pendingStep_pending rs none (fun a ha => by cases ha) r h

/-- Any repo returned by `oldestPending` is a row of the table. -/
theorem oldestPending_mem {rs : List Repo} {r : Repo}
    (h : oldestPending rs = some r) : r ∈ rs := by
  rcases foldl_pendingStep_mem rs none r h with h' | h'
  · cases h'
  · exact h'

/-- The repo returned by `oldestPending` is oldest among pending rows. -/
theorem oldestPending_min {rs : List Repo} {r : Repo}
    (h : oldestPending rs = some r) :
    ∀ q ∈ rs, q.status = .pending → r.created ≤ q.created :=
  (foldl_pendingStep_min rs none r h).2

/-- If no repo is pending, `oldestPending` returns `none`. -/
theorem oldestPending_none {rs : List Repo}
    (h : ∀ r ∈ rs, r.status ≠ .pending) : oldestPending rs = none := by
  unfold oldestPending
  induction rs with
  | nil => rfl
  | cons r rs ih =>
      simp only [List.foldl_cons]
      have hr : r.status ≠ .pending := h r (by simp)
      have hstep : pendingStep none r = none := by
        unfold pendingStep; simp [hr]
      rw [hstep]
      exact ih (fun x hx => h x (by simp [hx]))

/-- After a successful claim, no row in the updated table with the claimed id
is still pending. -/
theorem claimPendingRepo_claimed_not_pending {now : Nat} {rs rs' : List Repo}
    {c : Repo} (h : claimPendingRepo now rs = (.claimed c, rs')) :
    ∀ x ∈ rs', x.id = c.id → x.status = .indexing := by
  unfold claimPendingRepo at h
  cases hop : oldestPending rs with
  | none => rw [hop] at h; cases h
  | some r =>
      rw [hop] at h
      have hc : c = { r with status := .indexing, updated := now } := by
        have := congrArg Prod.fst h
        simpa using this.symm
      have hrs' : rs' = rs.map fun x =>
          if x.id = r.id then { x with status := .indexing, updated := now } else x := by
        have := congrArg Prod.snd h
        simpa using this.symm
      subst hc hrs'
      intro x hx hid
      rcases List.mem_map.mp hx with ⟨y, _, hy⟩
      by_cases hyid : y.id = r.id
      · simp only [if_pos hyid] at hy
        subst hy; rfl
      · simp only [if_neg hyid] at hy
        subst hy
        exact absurd hid hyid

/-! ## Frame lemmas: the per-file loop never touches the repo row or the
status trace -/

theorem upsertFile_repo (s : RunState) (path : String) (info : FileInfo)
    (n : Nat) : (upsertFile s path info n).1.repo = s.repo := by
  unfold upsertFile
  split <;> rfl

theorem upsertFile_trace (s : RunState) (path : String) (info : FileInfo)
    (n : Nat) : (upsertFile s path info n).1.statusTrace = s.statusTrace := by
  unfold upsertFile
  split <;> rfl

theorem upsertFile_skipped (s : RunState) (path : String) (info : FileInfo)
    (n : Nat) : (upsertFile s path info n).1.filesSkipped = s.filesSkipped := by
  unfold upsertFile
  split <;> rfl

theorem upsertFile_vectors (s : RunState) (path : String) (info : FileInfo)
    (n : Nat) : (upsertFile s path info n).1.vectors = s.vectors := by
  unfold upsertFile
  split <;> rfl

theorem indexFileContent_repo (o : Oracle) (s : RunState) (path : String)
    (info : FileInfo) : (indexFileContent o s path info).repo = s.repo := by
  unfold indexFileContent
  repeat' (first | split | (dsimp only; split))
  all_goals first
  | rfl
  | simp [upsertFile_repo]

theorem indexFileContent_trace (o : Oracle) (s : RunState) (path : String)
    (info : FileInfo) :
    (indexFileContent o s path info).statusTrace = s.statusTrace := by
  unfold indexFileContent
  repeat' (first | split | (dsimp only; split))
  all_goals first
  | rfl
  | simp [upsertFile_trace]

theorem indexFileContent_skipped (o : Oracle) (s : RunState) (path : String)
    (info : FileInfo) :
    (indexFileContent o s path info).filesSkipped = s.filesSkipped := by
  unfold indexFileContent
  repeat' (first | split | (dsimp only; split))
  all_goals first
  | rfl
  | simp [upsertFile_skipped]

theorem processOneFile_repo (o : Oracle) (s : RunState) (path : String) :
    (processOneFile o s path).repo = s.repo := by
  unfold processOneFile
  repeat' (first | split | (dsimp only; split))
  all_goals first
  | rfl
  | simp [indexFileContent_repo]

theorem processOneFile_trace (o : Oracle) (s : RunState) (path : String) :
    (processOneFile o s path).statusTrace = s.statusTrace := by
  unfold processOneFile
  repeat' (first | split | (dsimp only; split))
  all_goals first
  | rfl
  | simp [indexFileContent_trace]

theorem foldl_processOneFile_repo (o : Oracle) (ps : List String) :
    ∀ s : RunState, (ps.foldl (processOneFile o) s).repo = s.repo := by
  induction ps with
  | nil => intro s; rfl
  | cons p ps ih =>
      intro s
      simp only [List.foldl_cons]
      rw [ih (processOneFile o s p), processOneFile_repo]

theorem foldl_processOneFile_trace (o : Oracle) (ps : List String) :
    ∀ s : RunState, (ps.foldl (processOneFile o) s).statusTrace = s.statusTrace := by
  induction ps with
  | nil => intro s; rfl
  | cons p ps ih =>
      intro s
      simp only [List.foldl_cons]
      rw [ih (processOneFile o s p), processOneFile_trace]

/-! ## C4 — atomic claim -/

/-- C4: the job-queue claim is one single conditional update on the table:
when no pending repository exists it returns the typed no-work result (not an
error) leaving the table unchanged, and when it claims, the claimed row is the
oldest pending row transitioned to the active `indexing` status in that same
step, so a subsequent claim can never return the same repository. -/
theorem claim_atomic_spec (now : Nat) (rs : List Repo) :
    ((∀ r ∈ rs, r.status ≠ .pending) → claimPendingRepo now rs = (.noWork, rs)) ∧
    (∀ c rs', claimPendingRepo now rs = (.claimed c, rs') →
      ∃ r ∈ rs, r.status = .pending ∧
        c = { r with status := .indexing, updated := now } ∧
        c.status.isActive = true ∧
        (∀ q ∈ rs, q.status = .pending → r.created ≤ q.created) ∧
        (∀ x ∈ rs', x.id = c.id → x.status = .indexing) ∧
        (∀ now2 c2 rs2, claimPendingRepo now2 rs' = (.claimed c2, rs2) →
          c2.id ≠ c.id)) := by
  constructor
  · intro h
    unfold claimPendingRepo
    rw [oldestPending_none h]
  · intro c rs' h
    have hcopy := h
    unfold claimPendingRepo at h
    cases hop : oldestPending rs with
    | none => rw [hop] at h; simp at h
    | some r =>
        rw [hop] at h
        have h1 : ClaimResult.claimed { r with status := .indexing, updated := now } =
            ClaimResult.claimed c := congrArg Prod.fst h
        have hc : c = { r with status := .indexing, updated := now } :=
          (ClaimResult.claimed.injEq _ _ ▸ h1).symm
        refine ⟨r, oldestPending_mem hop, oldestPending_pending hop, hc, ?_, ?_, ?_, ?_⟩
        · rw [hc]; rfl
        · exact oldestPending_min hop
        · intro x hx hid
          refine claimPendingRepo_claimed_not_pending hcopy x hx ?_
          exact hid
        · intro now2 c2 rs2 h2
          unfold claimPendingRepo at h2
          cases hop2 : oldestPending rs' with
          | none => rw [hop2] at h2; simp at h2
          | some r2 =>
              rw [hop2] at h2
              have h21 : ClaimResult.claimed { r2 with status := .indexing, updated := now2 } =
                  ClaimResult.claimed c2 := congrArg Prod.fst h2
              have hc2 : c2 = { r2 with status := .indexing, updated := now2 } :=
                (ClaimResult.claimed.injEq _ _ ▸ h21).symm
              intro hid
              have hr2id : r2.id = c.id := by rw [hc2] at hid; exact hid
              have hr2p : r2.status = .pending := oldestPending_pending hop2
              have hr2mem : r2 ∈ rs' := oldestPending_mem hop2
              have := claimPendingRepo_claimed_not_pending hcopy r2 hr2mem hr2id
              rw [hr2p] at this
              cases this

/-- Witness for C4: on a table with no pending row, the claim returns the
typed no-work result and leaves the table unchanged. -/
theorem claim_atomic_spec_witness :
    claimPendingRepo 9 [repoDone] = (.noWork, [repoDone]) :=
  (claim_atomic_spec 9 [repoDone]).1 (by decide)

/-! ## C2 — status transitions -/

/-- C2 counterexample: the claim operation moves a pending repository directly
to `indexing` — the only transition the code ever takes out of `pending` is to
`indexing`, not to `cloning` as the claim states. -/
theorem pending_to_cloning_counterexample :
    pendingRepo.status = .pending ∧
    (claimPendingRepo 5 [pendingRepo]).2 =
      [{ pendingRepo with status := .indexing, updated := 5 }] ∧
    Status.indexing ≠ Status.cloning := by
  refine ⟨rfl, rfl, by decide⟩

/-- The exact trace of status writes one `IndexRepo` run performs, as a
function of which stage fails. -/
theorem indexRepo_trace_eq (o : Oracle) (now : Nat) (s0 : RunState) :
    (indexRepo o now s0).1.statusTrace =
      if o.providerFound = false then [.cloning, .failed]
      else
        match o.cloneResult with
        | .error _ => [.cloning, .failed]
        | .ok _ =>
          match o.metadataResult with
          | .error _ => [.cloning, .failed]
          | .ok _ =>
            match o.listFilesResult with
            | .error _ => [.cloning, .indexing, .failed]
            | .ok _ => [.cloning, .indexing, .completed] := by
  unfold indexRepo
  by_cases hp : o.providerFound
  · simp only [hp, Bool.true_eq_false, if_false]
    cases hc : o.cloneResult with
    | error e => simp [RunState.applyOp, applyRepoOp, startRunState]
    | ok u =>
        cases hm : o.metadataResult with
        | error e => simp [RunState.applyOp, applyRepoOp, startRunState]
        | ok sha =>
            cases hl : o.listFilesResult with
            | error e => simp [RunState.applyOp, applyRepoOp, startRunState]
            | ok fs =>
                simp [RunState.applyOp, applyRepoOp, startRunState,
                  foldl_processOneFile_trace]
  · have hp' : o.providerFound = false := by
      cases hpf : o.providerFound
      · rfl
      · exact absurd hpf hp
    simp [hp', RunState.applyOp, applyRepoOp, startRunState]

/-- C2 (amended): the claim operation moves `pending` directly to `indexing`;
within a run the orchestrator then writes `cloning` first (before any network
I/O), re-enters `indexing` only after a successful clone and metadata
extraction, and terminates the run's writes with `completed` or `failed`; a
clone failure never reaches `indexing`. -/
theorem status_chain_spec (o : Oracle) (now : Nat) (s0 : RunState) :
    (∀ n rs c rs', claimPendingRepo n rs = (.claimed c, rs') →
      c.status = .indexing) ∧
    ((indexRepo o now s0).1.statusTrace = [.cloning, .failed] ∨
     (indexRepo o now s0).1.statusTrace = [.cloning, .indexing, .failed] ∨
     (indexRepo o now s0).1.statusTrace = [.cloning, .indexing, .completed]) ∧
    (∀ e, o.cloneResult = .error e →
      (indexRepo o now s0).1.statusTrace = [.cloning, .failed]) ∧
    (Status.indexing ∈ (indexRepo o now s0).1.statusTrace →
      o.providerFound = true ∧ o.cloneResult = .ok ()) := by
  refine ⟨?_, ?_, ?_, ?_⟩
  · intro n rs c rs' h
    unfold claimPendingRepo at h
    cases hop : oldestPending rs with
    | none => rw [hop] at h; simp at h
    | some r =>
        rw [hop] at h
        have h1 : ClaimResult.claimed { r with status := .indexing, updated := n } =
            ClaimResult.claimed c := congrArg Prod.fst h
        have hc : c = { r with status := .indexing, updated := n } :=
          (ClaimResult.claimed.injEq _ _ ▸ h1).symm
        rw [hc]
  · rw [indexRepo_trace_eq]
    by_cases hp : o.providerFound = false
    · simp [hp]
    · simp only [hp, if_false]
      cases o.cloneResult with
      | error e => simp
      | ok u =>
          cases o.metadataResult with
          | error e => simp
          | ok sha =>
              cases o.listFilesResult with
              | error e => simp
              | ok fs => simp
  · intro e he
    rw [indexRepo_trace_eq, he]
    by_cases hp : o.providerFound = false
    · simp [hp]
    · simp [hp]
  · intro hmem
    rw [indexRepo_trace_eq] at hmem
    by_cases hp : o.providerFound = false
    · rw [if_pos hp] at hmem
      simp at hmem
    · rw [if_neg hp] at hmem
      have hpt : o.providerFound = true := by
        cases hpf : o.providerFound
        · exact absurd hpf hp
        · rfl
      refine ⟨hpt, ?_⟩
      cases hc : o.cloneResult with
      | error e => rw [hc] at hmem; simp at hmem
      | ok u => cases u; rfl

/-- Witness for C2 (amended): a failing clone writes exactly
`cloning` then `failed`. -/
theorem status_chain_spec_witness :
    (indexRepo oracleCloneFail 9 claimedState).1.statusTrace =
      [.cloning, .failed] :=
  (status_chain_spec oracleCloneFail 9 claimedState).2.2.1
    "authentication required" rfl

/-! ## C10 — only SetError writes a non-null error -/

/-- C10: every write issued through `UpdateStatus` (entering `cloning`,
reaching `completed`, resetting to `pending`, or any other status) stores SQL
NULL in the repository's error column, and `SetError` is the only repo
operation that turns a null error column non-null. -/
theorem updateStatus_error_null_spec :
    (∀ st now r, (applyRepoOp (.updateStatus st) now r).error = none) ∧
    (∀ op now r, r.error = none → (applyRepoOp op now r).error ≠ none →
      ∃ m, op = .setError m ∧ (applyRepoOp op now r).error = some m) := by
  constructor
  · intro st now r; rfl
  · intro op now r h0 hne
    cases op with
    | updateStatus st => exact absurd rfl hne
    | setError m => exact ⟨m, rfl, rfl⟩
    | updateAfterClone sha =>
        exact absurd (show (applyRepoOp (.updateAfterClone sha) now r).error = none from h0) hne

/-- Witness for C10: `SetError` is what turned the error column non-null. -/
theorem updateStatus_error_null_witness :
    ∃ m, RepoOp.setError "boom" = RepoOp.setError m ∧
      (applyRepoOp (.setError "boom") 7 repoDone).error = some m :=
  updateStatus_error_null_spec.2 (.setError "boom") 7 repoDone rfl (by simp [applyRepoOp])

/-! ## C3 — embedding cache (spec-modelled) -/

/-- C3 (spec-modelled): storing a vector under `(digest, model)` makes a
lookup with the same digest and model return exactly that vector, while a
lookup with a different model misses, provided the cache held no entry for
that digest under the other model. -/
theorem cache_lookup_spec (now now2 : Nat) (c : List CacheEntry) (d m m2 : String)
    (v : List Int) (hm : m2 ≠ m)
    (hc : ∀ e ∈ c, ¬(e.digest = d ∧ e.model = m2)) :
    (cacheLookup now2 (cacheStore now c d m v) d m).1 = some v ∧
    (cacheLookup now2 (cacheStore now c d m v) d m2).1 = none := by
  constructor
  · unfold cacheLookup cacheStore
    simp [List.find?]
  · unfold cacheLookup cacheStore
    have hne : (m == m2) = false := by
      rw [beq_eq_false_iff_ne]
      exact fun h => hm h.symm
    have hrest : (c.filter fun e => !(e.digest == d && e.model == m)).find?
        (fun e => e.digest == d && e.model == m2) = none := by
      rw [List.find?_eq_none]
      intro e he
      have hec : e ∈ c := List.mem_of_mem_filter he
      simp only [Bool.and_eq_true, beq_iff_eq, not_and]
      intro h1 h2
      exact hc e hec ⟨h1, h2⟩
    rw [List.find?_cons_of_neg _ (by simp [hne]), hrest]

/-- Witness for C3: a concrete store and the two lookups. -/
theorem cache_lookup_spec_witness :
    (cacheLookup 11 (cacheStore 10 [] "d1" "text-embedding-3-small" [1, 2])
        "d1" "text-embedding-3-small").1 = some [1, 2] ∧
    (cacheLookup 11 (cacheStore 10 [] "d1" "text-embedding-3-small" [1, 2])
        "d1" "other-model").1 = none :=
  cache_lookup_spec 10 11 [] "d1" "text-embedding-3-small" "other-model" [1, 2]
    (by decide) (by intro e he; cases he)

/-! ## C6 — clone failure -/

/-- C6: when the clone step fails, the run returns the clone error, the
repository ends `failed` with a non-empty, clone-categorised error message
persisted (`"clone failed: "` prefixed to the clone error), and no further
stage runs: file records, vectors and the embedding-call count are untouched. -/
theorem clone_failure_spec (o : Oracle) (now : Nat) (s0 : RunState) (e : String)
    (hp : o.providerFound = true) (hc : o.cloneResult = .error e) :
    (indexRepo o now s0).2 = some (.cloneFailed e) ∧
    (indexRepo o now s0).1.repo.status = .failed ∧
    (indexRepo o now s0).1.repo.error = some ("clone failed: " ++ e) ∧
    (indexRepo o now s0).1.repo.error ≠ some "" ∧
    (indexRepo o now s0).1.repo.error ≠ none ∧
    (indexRepo o now s0).1.files = s0.files ∧
    (indexRepo o now s0).1.vectors = s0.vectors ∧
    (indexRepo o now s0).1.embedCalls = 0 := by
  have hres : indexRepo o now s0 =
      (((startRunState s0).applyOp (.updateStatus .cloning) now).applyOp
        (.setError ("clone failed: " ++ e)) now, some (.cloneFailed e)) := by
    unfold indexRepo
    simp only [hp, if_true, hc]
  rw [hres]
  refine ⟨rfl, rfl, rfl, ?_, ?_, rfl, rfl, rfl⟩
  · intro habs
    simp only [RunState.applyOp, applyRepoOp, Option.some.injEq] at habs
    have hlen := congrArg String.length habs
    rw [String.length_append] at hlen
    have h14 : ("clone failed: ").length = 14 := rfl
    have h0 : ("").length = 0 := rfl
    rw [h14, h0] at hlen
    omega
  · intro habs
    simp only [RunState.applyOp, applyRepoOp] at habs
    cases habs

/-- Witness for C6: a concrete failed clone. -/
theorem clone_failure_spec_witness :
    (indexRepo oracleCloneFail 9 claimedState).2 =
      some (.cloneFailed "authentication required") ∧
    (indexRepo oracleCloneFail 9 claimedState).1.repo.status = .failed ∧
    (indexRepo oracleCloneFail 9 claimedState).1.repo.error =
      some ("clone failed: " ++ "authentication required") ∧
    (indexRepo oracleCloneFail 9 claimedState).1.repo.error ≠ some "" ∧
    (indexRepo oracleCloneFail 9 claimedState).1.repo.error ≠ none ∧
    (indexRepo oracleCloneFail 9 claimedState).1.files = claimedState.files ∧
    (indexRepo oracleCloneFail 9 claimedState).1.vectors = claimedState.vectors ∧
    (indexRepo oracleCloneFail 9 claimedState).1.embedCalls = 0 :=
  clone_failure_spec oracleCloneFail 9 claimedState "authentication required" rfl rfl

/-! ## C5 — per-file failures never fail the run -/

/-- When clone, metadata extraction and file listing all succeed, the run
returns success with status `completed` and a NULL error — whatever happens
inside the per-file loop. -/
theorem indexRepo_completes (o : Oracle) (now : Nat) (s0 : RunState)
    (sha : String) (fs : List String) (hp : o.providerFound = true)
    (hc : o.cloneResult = .ok ()) (hm : o.metadataResult = .ok sha)
    (hl : o.listFilesResult = .ok fs) :
    (indexRepo o now s0).2 = none ∧
    (indexRepo o now s0).1.repo.status = .completed ∧
    (indexRepo o now s0).1.repo.error = none := by
  have hres : indexRepo o now s0 =
      ((fs.foldl (processOneFile o)
          (((startRunState s0).applyOp (.updateStatus .cloning) now).applyOp
            (.updateAfterClone sha) now)).applyOp (.updateStatus .completed) now,
       none) := by
    unfold indexRepo
    simp only [hp, if_true, hc, hm, hl]
  rw [hres]
  exact ⟨rfl, rfl, rfl⟩

/-- C5 (amended): per-file stage failures never fail the run — the repository
still ends `completed` with a NULL error column; a stat, read, embed or
db-upsert failure makes the loop skip that file and leave the state otherwise
untouched (only the embedding-call counter moves once the embed stage was
reached); a chunker failure, however, does not skip the file — it falls back
to indexing the whole file as one chunk. -/
theorem perFile_failure_spec (o : Oracle) (now : Nat) (s0 : RunState)
    (sha : String) (fs : List String) (s : RunState) (p : String)
    (info : FileInfo) (m : String)
    (hp : o.providerFound = true) (hc : o.cloneResult = .ok ())
    (hm : o.metadataResult = .ok sha) (hl : o.listFilesResult = .ok fs) :
    ((indexRepo o now s0).2 = none ∧
     (indexRepo o now s0).1.repo.status = .completed ∧
     (indexRepo o now s0).1.repo.error = none) ∧
    (o.fileInfoResult p = .error m → processOneFile o s p = s) ∧
    (o.fileInfoResult p = .ok info → lookupFile s.files s.repo.id p = none →
      o.readFileResult p = .error m → processOneFile o s p = s) ∧
    (o.fileInfoResult p = .ok info → lookupFile s.files s.repo.id p = none →
      ∀ content, o.readFileResult p = .ok content →
        chunksFor o p content info ≠ [] →
        o.embedResult ((chunksFor o p content info).map Chunk.content) = .error m →
        processOneFile o s p = { s with embedCalls := s.embedCalls + 1 }) ∧
    (o.fileInfoResult p = .ok info → lookupFile s.files s.repo.id p = none →
      ∀ content es, o.readFileResult p = .ok content →
        chunksFor o p content info ≠ [] →
        o.embedResult ((chunksFor o p content info).map Chunk.content) = .ok es →
        o.upsertResult p = .error m →
        processOneFile o s p = { s with embedCalls := s.embedCalls + 1 }) := by
  refine ⟨indexRepo_completes o now s0 sha fs hp hc hm hl, ?_, ?_, ?_, ?_⟩
  · intro hinfo
    unfold processOneFile
    rw [hinfo]
  · intro hinfo hlk hread
    unfold processOneFile
    rw [hinfo, hlk]
    unfold indexFileContent
    rw [hread]
  · intro hinfo hlk content hread hchunks hembed
    unfold processOneFile
    rw [hinfo, hlk]
    unfold indexFileContent
    rw [hread]
    simp only [List.length_eq_zero, hchunks, if_false, hembed]
  · intro hinfo hlk content es hread hchunks hembed hup
    unfold processOneFile
    rw [hinfo, hlk]
    unfold indexFileContent
    rw [hread]
    simp only [List.length_eq_zero, hchunks, if_false, hembed, hup]

/-- C5 counterexample: when the chunk stage fails for a file, the file is not
skipped — the run indexes it through the whole-file fallback: it is counted
processed, its file row is written, and a chunk is created. -/
theorem chunk_failure_not_skipped_counterexample :
    (indexRepo oracleChunkFail 3 claimedState).1.filesProcessed = 1 ∧
    (indexRepo oracleChunkFail 3 claimedState).1.files =
      [{ id := 1, repoId := 1, path := "main.go", shasum := "h1",
         language := "go", sizeBytes := 12, chunkCount := 1 }] ∧
    (indexRepo oracleChunkFail 3 claimedState).1.chunksCreated = 1 := by
  exact ⟨rfl, rfl, rfl⟩

/-- Witness for C5: the run with the failing chunker still completes with a
NULL error. -/
theorem perFile_failure_spec_witness :
    (indexRepo oracleChunkFail 3 claimedState).2 = none ∧
    (indexRepo oracleChunkFail 3 claimedState).1.repo.status = .completed ∧
    (indexRepo oracleChunkFail 3 claimedState).1.repo.error = none :=
  (perFile_failure_spec oracleChunkFail 3 claimedState "sha1" ["main.go"]
    claimedState "main.go"
    { shasum := "h1", sizeBytes := 12, language := "go" } "m"
    rfl rfl rfl rfl).1

/-! ## C7 — walker error semantics -/

/-- C7 counterexample: a stat error handed to the walk callback aborts the
whole walk — `ListFiles` returns the error instead of the remaining indexable
paths (which an error-free walk of the same surviving files would return). -/
theorem walker_abort_counterexample :
    listFiles 1000
      [.file "a.go" 10 none, .file "b.go" 10 (some "permission denied"),
       .file "c.go" 10 none] = .error "permission denied" ∧
    listFiles 1000 [.file "a.go" 10 none, .file "c.go" 10 none] =
      .ok ["a.go", "c.go"] := by
  constructor
  · simp only [listFiles, walkSiblings, walkNode]
    decide
  · simp only [listFiles, walkSiblings, walkNode]
    decide

/-- C7 (amended): an error surfaced during the directory walk aborts
`ListFiles` with that error — every already-collected and not-yet-visited path
is dropped — whereas a file that cannot be statted or read after the walk is
skipped inside the orchestrator's per-file loop, which continues with the
remaining files. -/
theorem walker_error_spec (maxSize : Nat) (pre name : String) (size : Nat)
    (e : String) (rest : List FSNode) (o : Oracle) (s : RunState) (p : String)
    (m : String) (ps : List String)
    (hstat : o.fileInfoResult p = .error m) :
    walkSiblings maxSize pre (FSNode.file name size (some e) :: rest) =
      .error e ∧
    processOneFile o s p = s ∧
    (p :: ps).foldl (processOneFile o) s = ps.foldl (processOneFile o) s := by
  refine ⟨?_, ?_, ?_⟩
  · simp only [walkSiblings, walkNode]
  · unfold processOneFile
    rw [hstat]
  · simp only [List.foldl_cons]
    congr 1
    unfold processOneFile
    rw [hstat]

/-- Witness for C7 (amended): a concrete aborted walk and a concrete skipped
stat failure. -/
theorem walker_error_spec_witness :
    walkSiblings 1000 "" (FSNode.file "b.go" 10 (some "eacces") ::
      [FSNode.file "c.go" 10 none]) = .error "eacces" ∧
    processOneFile oracleCloneFail claimedState "x.go" = claimedState ∧
    (["x.go", "y.go"] : List String).foldl (processOneFile oracleCloneFail)
      claimedState =
      (["y.go"] : List String).foldl (processOneFile oracleCloneFail)
        claimedState :=
  walker_error_spec 1000 "" "b.go" 10 "eacces" [FSNode.file "c.go" 10 none]
    oracleCloneFail claimedState "x.go" "unused" ["y.go"] rfl

/-! ## C1 — diff classification -/

/-- C1 counterexample: a persisted path absent from the walk is assigned no
category at all — with old set `[("a", "h")]` and an empty walk the
classification is empty, and with walk `[("b", "g")]` only the walked path is
classified; the persisted path `"a"` is never classified `deleted`. -/
theorem diff_partition_counterexample :
    diffClassification [("a", "h")] [] = [] ∧
    diffClassification [("a", "h")] [("b", "g")] = [("b", DiffClass.added)] := by
  exact ⟨rfl, rfl⟩

/-- C1 (amended): the code's diff classification is a total, exclusive
partition of the walked paths only: each walked `(path, digest)` pair receives
exactly one of `added` (path unpersisted), `changed` (persisted with another
digest), `unchanged` (persisted with the same digest); `deleted` is never
produced, and only walked paths appear in the classification — persisted paths
absent from the walk receive no category. -/
theorem diff_partition_spec (old walked : List (String × String)) :
    (diffClassification old walked).length = walked.length ∧
    (∀ p c, (p, c) ∈ diffClassification old walked →
      ∃ d, (p, d) ∈ walked ∧ c = classifyPath old p d) ∧
    (∀ p d, classifyPath old p d ≠ .deleted) ∧
    (∀ p d, (classifyPath old p d = .added ↔ lookupDigest old p = none) ∧
            (classifyPath old p d = .unchanged ↔ lookupDigest old p = some d) ∧
            (classifyPath old p d = .changed ↔
              ∃ d0, lookupDigest old p = some d0 ∧ d0 ≠ d)) := by
  refine ⟨by simp [diffClassification], ?_, ?_, ?_⟩
  · intro p c hmem
    unfold diffClassification at hmem
    rcases List.mem_map.mp hmem with ⟨pd, hpd, heq⟩
    have h1 : pd.1 = p := congrArg Prod.fst heq
    have h2 : classifyPath old pd.1 pd.2 = c := congrArg Prod.snd heq
    refine ⟨pd.2, ?_, ?_⟩
    · rw [← h1, Prod.mk.eta]
      exact hpd
    · rw [← h2, h1]
  · intro p d
    unfold classifyPath
    cases h : lookupDigest old p with
    | none => simp
    | some d0 =>
        by_cases hd : d0 = d
        · simp [hd]
        · simp [hd]
  · intro p d
    unfold classifyPath
    cases h : lookupDigest old p with
    | none => simp
    | some d0 =>
        by_cases hd : d0 = d
        · subst hd
          simp
        · simp [hd]

/-- Witness for C1 (amended): the characterisation evaluated at a concrete
old set and walk. -/
theorem diff_partition_spec_witness :
    classifyPath [("a", "h"), ("b", "g")] "a" "h" ≠ DiffClass.deleted ∧
    (classifyPath [("a", "h"), ("b", "g")] "a" "h" = .unchanged ↔
      lookupDigest [("a", "h"), ("b", "g")] "a" = some "h") :=
  ⟨(diff_partition_spec [("a", "h"), ("b", "g")] []).2.2.1 "a" "h",
   ((diff_partition_spec [("a", "h"), ("b", "g")] []).2.2.2 "a" "h").2.1⟩

/-! ## C9 — vector deletion before re-embedding is not atomic -/

/-- C9 (amended): for a changed file the orchestrator deletes the file's old
vector points before reading, chunking and embedding; if the read, embed or
db-upsert stage then fails, the loop continues with the file holding no vector
points while its old file record with its old digest remains — deletion and
reinsertion are not atomic per file. (A chunker failure is different: it falls
back to one whole-file chunk and the file is reindexed.) The run still
completes. -/
theorem changed_file_deletion_spec (o : Oracle) (now : Nat) (s0 s : RunState)
    (sha : String) (fs : List String) (p m : String) (info : FileInfo)
    (ex : DBFile)
    (hp : o.providerFound = true) (hc : o.cloneResult = .ok ())
    (hm : o.metadataResult = .ok sha) (hl : o.listFilesResult = .ok fs)
    (hinfo : o.fileInfoResult p = .ok info)
    (hlk : lookupFile s.files s.repo.id p = some ex)
    (hdiff : ex.shasum ≠ info.shasum)
    (hdel : o.deleteResult ex.id = .ok ()) :
    ((indexRepo o now s0).2 = none ∧
     (indexRepo o now s0).1.repo.status = .completed) ∧
    (o.readFileResult p = .error m →
      processOneFile o s p =
        { s with vectors := s.vectors.filter fun v => v.fileId != ex.id } ∧
      ∀ v ∈ (processOneFile o s p).vectors, v.fileId ≠ ex.id) ∧
    (∀ content, o.readFileResult p = .ok content →
      chunksFor o p content info ≠ [] →
      o.embedResult ((chunksFor o p content info).map Chunk.content) = .error m →
      processOneFile o s p =
        { s with vectors := s.vectors.filter fun v => v.fileId != ex.id,
                 embedCalls := s.embedCalls + 1 }) ∧
    (∀ content es, o.readFileResult p = .ok content →
      chunksFor o p content info ≠ [] →
      o.embedResult ((chunksFor o p content info).map Chunk.content) = .ok es →
      o.upsertResult p = .error m →
      processOneFile o s p =
        { s with vectors := s.vectors.filter fun v => v.fileId != ex.id,
                 embedCalls := s.embedCalls + 1 }) := by
  have hcompletes := indexRepo_completes o now s0 sha fs hp hc hm hl
  refine ⟨⟨hcompletes.1, hcompletes.2.1⟩, ?_, ?_, ?_⟩
  · intro hread
    have heq : processOneFile o s p =
        { s with vectors := s.vectors.filter fun v => v.fileId != ex.id } := by
      unfold processOneFile
      simp only [hinfo, hlk]
      rw [if_neg hdiff]
      simp only [hdel]
      unfold indexFileContent
      simp only [hread]
    refine ⟨heq, ?_⟩
    rw [heq]
    intro v hv
    have := List.of_mem_filter hv
    simpa [bne_iff_ne] using this
  · intro content hread hchunks hembed
    unfold processOneFile
    simp only [hinfo, hlk]
    rw [if_neg hdiff]
    simp only [hdel]
    unfold indexFileContent
    simp only [hread, List.length_eq_zero, hchunks, if_false, hembed]
  · intro content es hread hchunks hembed hup
    unfold processOneFile
    simp only [hinfo, hlk]
    rw [if_neg hdiff]
    simp only [hdel]
    unfold indexFileContent
    simp only [hread, List.length_eq_zero, hchunks, if_false, hembed, hup]

/-- An oracle whose read stage fails for every path, all other stages ok. -/
def oracleReadFail : Oracle :=
  { oracleChunkFail with readFileResult := fun _ => .error "eacces" }

/-- Witness for C9 (amended): the coupled state equalities at a concrete
changed file. -/
theorem changed_file_deletion_spec_witness :
    processOneFile oracleReadFail changedFileState "main.go" =
      { changedFileState with
          vectors := changedFileState.vectors.filter fun v => v.fileId != 7 } ∧
    ∀ v ∈ (processOneFile oracleReadFail changedFileState "main.go").vectors,
      v.fileId ≠ 7 :=
  (changed_file_deletion_spec oracleReadFail 3 claimedState changedFileState
    "sha1" ["main.go"] "main.go" "eacces"
    { shasum := "h1", sizeBytes := 12, language := "go" }
    { id := 7, repoId := 1, path := "main.go", shasum := "old",
      language := "go", sizeBytes := 5, chunkCount := 2 }
    rfl rfl rfl rfl rfl rfl (by decide) rfl).2.1 rfl

/-- C9 counterexample: for a changed file whose chunk stage fails (read, embed
and upsert succeeding), the file is not left holding no vector entries with
its old record — the whole-file fallback reindexes it: the old vector point is
replaced by a new one and the record's digest advances. -/
theorem changed_file_chunk_failure_counterexample :
    (indexRepo oracleChunkFail 3 changedFileState).1.files =
      [{ id := 7, repoId := 1, path := "main.go", shasum := "h1",
         language := "go", sizeBytes := 12, chunkCount := 1 }] ∧
    (indexRepo oracleChunkFail 3 changedFileState).1.vectors =
      [{ repoId := 1, fileId := 7, chunkIndex := 0, filePath := "main.go",
         content := "package main", startLine := 1, endLine := 1,
         language := "go", embedding := [1] }] ∧
    (indexRepo oracleChunkFail 3 changedFileState).1.filesProcessed = 1 := by
  exact ⟨rfl, rfl, rfl⟩

/-! ## C8 — lookup lemmas for the files table -/

theorem lookupFile_map_self (rid : Nat) (p : String) (u : DBFile → DBFile)
    (hu : ∀ g, (u g).repoId = g.repoId ∧ (u g).path = g.path) :
    ∀ (files : List DBFile) (ex : DBFile),
      lookupFile files rid p = some ex →
      lookupFile (files.map u) rid p = some (u ex) := by
  intro files
  induction files with
  | nil => intro ex h; cases h
  | cons f l ih =>
      intro ex h
      unfold lookupFile at h ⊢
      simp only [List.map_cons, List.find?] at h ⊢
      have hpred : ((u f).repoId == rid && (u f).path == p) =
          (f.repoId == rid && f.path == p) := by
        rw [(hu f).1, (hu f).2]
      rw [hpred]
      cases hcase : (f.repoId == rid && f.path == p) with
      | true =>
          rw [hcase] at h
          simp only at h
          cases h
          rfl
      | false =>
          rw [hcase] at h
          simp only at h
          exact ih ex h

theorem lookupFile_map_frame (rid : Nat) (p q : String) (hpq : p ≠ q)
    (u : DBFile → DBFile)
    (hu : ∀ g, (u g).repoId = g.repoId ∧ (u g).path = g.path)
    (hq : ∀ g, g.path ≠ q → u g = g) :
    ∀ files : List DBFile,
      lookupFile (files.map u) rid p = lookupFile files rid p := by
  intro files
  induction files with
  | nil => rfl
  | cons f l ih =>
      unfold lookupFile at ih ⊢
      simp only [List.map_cons, List.find?]
      have hpred : ((u f).repoId == rid && (u f).path == p) =
          (f.repoId == rid && f.path == p) := by
        rw [(hu f).1, (hu f).2]
      rw [hpred]
      cases hcase : (f.repoId == rid && f.path == p) with
      | true =>
          simp only
          have hfp : f.path = p := by
            have := (Bool.and_eq_true _ _).mp hcase
            exact beq_iff_eq.mp this.2
          rw [hq f (by rw [hfp]; exact hpq)]
      | false =>
          simp only
          exact ih

theorem lookupFile_append_cases (rid : Nat) (p : String) (f : DBFile) :
    ∀ files : List DBFile,
      lookupFile (files ++ [f]) rid p =
        match lookupFile files rid p with
        | some g => some g
        | none => if f.repoId == rid && f.path == p then some f else none := by
  intro files
  induction files with
  | nil =>
      unfold lookupFile
      simp only [List.nil_append, List.find?_nil, List.find?]
      cases hcase : (f.repoId == rid && f.path == p) <;> simp
  | cons g l ih =>
      unfold lookupFile at ih ⊢
      simp only [List.cons_append, List.find?]
      cases hcase : (g.repoId == rid && g.path == p) with
      | true => simp only
      | false => simp only; exact ih

/-- The per-file loop body can change the record of its own path only: the
lookup of any other path is unchanged. -/
theorem processOneFile_files_frame (o : Oracle) (s : RunState) (q p : String)
    (hpq : p ≠ q) :
    lookupFile (processOneFile o s q).files s.repo.id p =
      lookupFile s.files s.repo.id p := by
  have hupsert : ∀ (s2 : RunState) (info : FileInfo) (n : Nat),
      s2.repo.id = s.repo.id → s2.files = s.files →
      lookupFile (upsertFile s2 q info n).1.files s.repo.id p =
        lookupFile s.files s.repo.id p := by
    intro s2 info n hrid hfiles
    unfold upsertFile
    cases hlk : lookupFile s2.files s2.repo.id q with
    | some ex =>
        simp only
        rw [lookupFile_map_frame s.repo.id p q hpq _ ?_ ?_ s2.files, hfiles]
        · intro g
          by_cases hg : g.repoId = s2.repo.id ∧ g.path = q
          · rw [if_pos hg]; exact ⟨rfl, rfl⟩
          · rw [if_neg hg]; exact ⟨rfl, rfl⟩
        · intro g hg
          rw [if_neg]
          intro hgg
          exact hg hgg.2
    | none =>
        simp only
        rw [lookupFile_append_cases, hfiles]
        have hqp : (q == p) = false := by
          rw [beq_eq_false_iff_ne]
          exact fun hh => hpq hh.symm
        cases lookupFile s.files s.repo.id p with
        | some g => rfl
        | none => simp [freshFile, hqp]
  have hcontent : ∀ (s2 : RunState) (info : FileInfo),
      s2.repo.id = s.repo.id → s2.files = s.files →
      lookupFile (indexFileContent o s2 q info).files s.repo.id p =
        lookupFile s.files s.repo.id p := by
    intro s2 info hrid hfiles
    unfold indexFileContent
    cases o.readFileResult q with
    | error e => rw [hfiles]
    | ok content =>
        simp only
        by_cases hz : (chunksFor o q content info).length = 0
        · rw [if_pos hz, hfiles]
        · rw [if_neg hz]
          cases o.embedResult ((chunksFor o q content info).map Chunk.content) with
          | error e => rw [hfiles]
          | ok es =>
              simp only
              cases o.upsertResult q with
              | error e => rw [hfiles]
              | ok u =>
                  simp only
                  cases o.insertResult q with
                  | error e =>
                      exact hupsert { s2 with embedCalls := s2.embedCalls + 1 }
                        info (chunksFor o q content info).length hrid hfiles
                  | ok v =>
                      exact hupsert { s2 with embedCalls := s2.embedCalls + 1 }
                        info (chunksFor o q content info).length hrid hfiles
  unfold processOneFile
  cases o.fileInfoResult q with
  | error e => rfl
  | ok info =>
      simp only
      cases hlk : lookupFile s.files s.repo.id q with
      | some ex =>
          simp only
          by_cases hsha : ex.shasum = info.shasum
          · rw [if_pos hsha]
          · rw [if_neg hsha]
            cases o.deleteResult ex.id with
            | ok u => exact hcontent _ info rfl rfl
            | error e => exact hcontent s info rfl rfl
      | none =>
          simp only
          exact hcontent s info rfl rfl

/-- A fully successful pass over one file's content leaves a file record for
that path carrying the on-disk digest. -/
theorem indexFileContent_establishes (o : Oracle) (s : RunState) (p : String)
    (i : FileInfo)
    (hread : ∃ c, o.readFileResult p = .ok c)
    (hchunks : ∀ cs, o.chunkFileResult p = .ok cs → cs ≠ [])
    (hembed : ∀ ts, ∃ es, o.embedResult ts = .ok es)
    (hup : o.upsertResult p = .ok ())
    (hins : o.insertResult p = .ok ()) :
    ∃ f, lookupFile (indexFileContent o s p i).files s.repo.id p = some f ∧
      f.shasum = i.shasum := by
  obtain ⟨content, hr⟩ := hread
  have hcne : ¬((chunksFor o p content i).length = 0) := by
    rw [List.length_eq_zero]
    unfold chunksFor
    cases hch : o.chunkFileResult p with
    | ok cs => exact hchunks cs hch
    | error e => simp
  obtain ⟨es, he⟩ := hembed ((chunksFor o p content i).map Chunk.content)
  have hfiles_eq : (indexFileContent o s p i).files =
      (upsertFile { s with embedCalls := s.embedCalls + 1 } p i
        (chunksFor o p content i).length).1.files := by
    unfold indexFileContent
    simp only [hr]
    rw [if_neg hcne]
    simp only [he, hup, hins]
  cases hlk : lookupFile s.files s.repo.id p with
  | some ex =>
      refine ⟨updatedFile ex i (chunksFor o p content i).length, ?_, rfl⟩
      rw [hfiles_eq]
      unfold upsertFile
      dsimp only
      rw [hlk]
      simp only
      have hu : ∀ g : DBFile,
          ((if g.repoId = s.repo.id ∧ g.path = p then
              updatedFile g i (chunksFor o p content i).length
            else g) : DBFile).repoId = g.repoId ∧
          ((if g.repoId = s.repo.id ∧ g.path = p then
              updatedFile g i (chunksFor o p content i).length
            else g) : DBFile).path = g.path := by
        intro g
        by_cases hg : g.repoId = s.repo.id ∧ g.path = p
        · rw [if_pos hg]; exact ⟨rfl, rfl⟩
        · rw [if_neg hg]; exact ⟨rfl, rfl⟩
      rw [lookupFile_map_self s.repo.id p _ hu s.files ex hlk]
      have hex : ex.repoId = s.repo.id ∧ ex.path = p := by
        have := List.find?_some hlk
        simp only [Bool.and_eq_true, beq_iff_eq] at this
        exact this
      rw [if_pos hex]
  | none =>
      refine ⟨freshFile s.nextFileId s.repo.id p i (chunksFor o p content i).length, ?_, rfl⟩
      rw [hfiles_eq]
      unfold upsertFile
      dsimp only
      rw [hlk]
      simp only
      rw [lookupFile_append_cases, hlk]
      simp [freshFile]

/-- Under `stagesOk`, one pass of the per-file loop leaves a record for the
path carrying the on-disk digest (whether the file was skipped as unchanged,
reindexed, or newly added). -/
theorem processOneFile_establishes (o : Oracle) (s : RunState) (p : String)
    (hok : stagesOk o p) (i : FileInfo) (hinfo : o.fileInfoResult p = .ok i) :
    ∃ f, lookupFile (processOneFile o s p).files s.repo.id p = some f ∧
      f.shasum = i.shasum := by
  obtain ⟨_hi, hread, hchunks, hdel, hembed, hup, hins⟩ := hok
  unfold processOneFile
  simp only [hinfo]
  cases hlk : lookupFile s.files s.repo.id p with
  | some ex =>
      by_cases hsha : ex.shasum = i.shasum
      · simp only [hlk, if_pos hsha]
        exact ⟨ex, rfl, hsha⟩
      · simp only [hlk, if_neg hsha, hdel ex.id]
        exact indexFileContent_establishes o
          { s with vectors := s.vectors.filter fun v => v.fileId != ex.id }
          p i hread hchunks hembed hup hins
  | none =>
      simp only [hlk]
      exact indexFileContent_establishes o s p i hread hchunks hembed hup hins

/-- Folding the per-file loop over paths other than `p` does not change what a
lookup of `p` sees. -/
theorem foldl_files_frame (o : Oracle) :
    ∀ (fs : List String) (p : String), (∀ q ∈ fs, p ≠ q) →
      ∀ s : RunState,
        lookupFile (fs.foldl (processOneFile o) s).files s.repo.id p =
          lookupFile s.files s.repo.id p := by
  intro fs
  induction fs with
  | nil => intro p _ s; rfl
  | cons q rest ih =>
      intro p hnot s
      simp only [List.foldl_cons]
      have h1 := ih p (fun x hx => hnot x (List.mem_cons_of_mem q hx))
        (processOneFile o s q)
      rw [processOneFile_repo] at h1
      rw [h1]
      exact processOneFile_files_frame o s q p (hnot q (List.mem_cons_self q rest))

/-- After a run of the per-file loop in which every stage succeeds, every
walked path has a file record carrying its on-disk digest. -/
theorem foldl_processOneFile_establishes (o : Oracle) :
    ∀ (fs : List String), (∀ p ∈ fs, stagesOk o p) →
      ∀ (s : RunState) (p : String), p ∈ fs →
      ∀ i, o.fileInfoResult p = .ok i →
      ∃ f, lookupFile (fs.foldl (processOneFile o) s).files s.repo.id p = some f ∧
        f.shasum = i.shasum := by
  intro fs
  induction fs with
  | nil => intro _ s p hp; cases hp
  | cons q rest ih =>
      intro hok s p hp i hinfo
      simp only [List.foldl_cons]
      by_cases hin : p ∈ rest
      · have := ih (fun x hx => hok x (List.mem_cons_of_mem q hx))
          (processOneFile o s q) p hin i hinfo
        rw [processOneFile_repo] at this
        exact this
      · have hpq : p = q := by
          rcases List.mem_cons.mp hp with h | h
          · exact h
          · exact absurd h hin
        subst hpq
        obtain ⟨f, hf, hsha⟩ := processOneFile_establishes o s p
          (hok p (List.mem_cons_self p rest)) i hinfo
        have hframe := foldl_files_frame o rest p
          (fun x hx => fun hcontra => hin (hcontra ▸ hx))
          (processOneFile o s p)
        rw [processOneFile_repo] at hframe
        exact ⟨f, hframe.trans hf, hsha⟩

/-- When every walked path already has a record matching its on-disk digest,
the per-file loop skips every file: the state is unchanged except that
`filesSkipped` grows by the number of walked paths — in particular no
embedding call is made and no file is processed. -/
theorem foldl_all_unchanged (o : Oracle) :
    ∀ (fs : List String) (s : RunState),
      (∀ p ∈ fs, ∃ i, o.fileInfoResult p = .ok i ∧
        ∃ f, lookupFile s.files s.repo.id p = some f ∧ f.shasum = i.shasum) →
      fs.foldl (processOneFile o) s =
        { s with filesSkipped := s.filesSkipped + fs.length } := by
  intro fs
  induction fs with
  | nil => intro s _; rfl
  | cons q rest ih =>
      intro s h
      obtain ⟨i, hinfo, f, hlk, hsha⟩ := h q (List.mem_cons_self q rest)
      have hstep : processOneFile o s q =
          { s with filesSkipped := s.filesSkipped + 1 } := by
        unfold processOneFile
        simp only [hinfo, hlk]
        rw [if_pos hsha]
      simp only [List.foldl_cons, hstep]
      rw [ih { s with filesSkipped := s.filesSkipped + 1 } ?_]
      · have harith : s.filesSkipped + 1 + rest.length =
            s.filesSkipped + (q :: rest).length := by
          simp only [List.length_cons]
          omega
        rw [harith]
      · intro p hp
        obtain ⟨i2, hinfo2, f2, hlk2, hsha2⟩ := h p (List.mem_cons_of_mem q hp)
        exact ⟨i2, hinfo2, f2, hlk2, hsha2⟩

/-- The whole-run equation when clone, metadata and listing succeed. -/
theorem indexRepo_ok_eq (o : Oracle) (now : Nat) (s0 : RunState) (sha : String)
    (fs : List String) (hp : o.providerFound = true)
    (hc : o.cloneResult = .ok ()) (hm : o.metadataResult = .ok sha)
    (hl : o.listFilesResult = .ok fs) :
    indexRepo o now s0 =
      ((fs.foldl (processOneFile o)
          (((startRunState s0).applyOp (.updateStatus .cloning) now).applyOp
            (.updateAfterClone sha) now)).applyOp (.updateStatus .completed) now,
       none) := by
  unfold indexRepo
  simp only [hp, if_true, hc, hm, hl]

theorem applyRepoOp_id (op : RepoOp) (now : Nat) (r : Repo) :
    (applyRepoOp op now r).id = r.id := by
  cases op <;> rfl

theorem applyOp_repo_id (s : RunState) (op : RepoOp) (n : Nat) :
    (s.applyOp op n).repo.id = s.repo.id :=
  applyRepoOp_id op n s.repo

theorem applyOp_files (s : RunState) (op : RepoOp) (n : Nat) :
    (s.applyOp op n).files = s.files := rfl

theorem startRunState_files (s : RunState) : (startRunState s).files = s.files :=
  rfl

theorem startRunState_repo (s : RunState) : (startRunState s).repo = s.repo :=
  rfl

/-- C8: after a first run in which every per-file stage succeeded, a second
run of the pipeline on the unchanged checkout classifies zero files as added
or changed — every walked file is skipped as unchanged — makes zero
embedding-service calls, and still completes. -/
theorem second_run_idempotent_spec (o : Oracle) (now now2 : Nat)
    (s0 : RunState) (sha : String) (fs : List String)
    (hp : o.providerFound = true) (hc : o.cloneResult = .ok ())
    (hm : o.metadataResult = .ok sha) (hl : o.listFilesResult = .ok fs)
    (hok : ∀ p ∈ fs, stagesOk o p) :
    (indexRepo o now2 (indexRepo o now s0).1).1.filesProcessed = 0 ∧
    (indexRepo o now2 (indexRepo o now s0).1).1.embedCalls = 0 ∧
    (indexRepo o now2 (indexRepo o now s0).1).1.filesSkipped = fs.length ∧
    (indexRepo o now2 (indexRepo o now s0).1).2 = none ∧
    (indexRepo o now2 (indexRepo o now s0).1).1.repo.status = .completed := by
  have h1 := indexRepo_ok_eq o now s0 sha fs hp hc hm hl
  have h2 := indexRepo_ok_eq o now2 ((indexRepo o now s0).1) sha fs hp hc hm hl
  -- names for the two fold starting states
  have hinv2 : ∀ p ∈ fs, ∃ i, o.fileInfoResult p = .ok i ∧
      ∃ f,
        lookupFile
          (((startRunState (indexRepo o now s0).1).applyOp
              (.updateStatus .cloning) now2).applyOp
            (.updateAfterClone sha) now2).files
          (((startRunState (indexRepo o now s0).1).applyOp
              (.updateStatus .cloning) now2).applyOp
            (.updateAfterClone sha) now2).repo.id p = some f ∧
        f.shasum = i.shasum := by
    intro p hpmem
    obtain ⟨⟨i, hi⟩, _⟩ := hok p hpmem
    refine ⟨i, hi, ?_⟩
    have hbase := foldl_processOneFile_establishes o fs hok
      (((startRunState s0).applyOp (.updateStatus .cloning) now).applyOp
        (.updateAfterClone sha) now) p hpmem i hi
    -- the second run's pre-fold state has the same files and repo id as the
    -- first run's post-fold state
    have hfileseq :
        (((startRunState (indexRepo o now s0).1).applyOp
            (.updateStatus .cloning) now2).applyOp
          (.updateAfterClone sha) now2).files =
        (fs.foldl (processOneFile o)
          (((startRunState s0).applyOp (.updateStatus .cloning) now).applyOp
            (.updateAfterClone sha) now)).files := by
      rw [h1]
      rfl
    have hrideq :
        (((startRunState (indexRepo o now s0).1).applyOp
            (.updateStatus .cloning) now2).applyOp
          (.updateAfterClone sha) now2).repo.id =
        (((startRunState s0).applyOp (.updateStatus .cloning) now).applyOp
          (.updateAfterClone sha) now).repo.id := by
      simp only [h1, applyOp_repo_id, startRunState_repo,
        foldl_processOneFile_repo]
    rw [hfileseq, hrideq]
    exact hbase
  have hfold2 := foldl_all_unchanged o fs
    (((startRunState (indexRepo o now s0).1).applyOp
        (.updateStatus .cloning) now2).applyOp
      (.updateAfterClone sha) now2) hinv2
  rw [h2, hfold2]
  refine ⟨rfl, rfl, ?_, rfl, rfl⟩
  show 0 + fs.length = fs.length
  omega

/-- Witness for C8: two concrete consecutive runs over the same one-file
checkout — the second processes nothing, calls the embedding service zero
times, skips the single file, and completes. -/
theorem second_run_idempotent_spec_witness :
    (indexRepo oracleChunkFail 4
        (indexRepo oracleChunkFail 3 claimedState).1).1.filesProcessed = 0 ∧
    (indexRepo oracleChunkFail 4
        (indexRepo oracleChunkFail 3 claimedState).1).1.embedCalls = 0 ∧
    (indexRepo oracleChunkFail 4
        (indexRepo oracleChunkFail 3 claimedState).1).1.filesSkipped =
      (["main.go"] : List String).length ∧
    (indexRepo oracleChunkFail 4
        (indexRepo oracleChunkFail 3 claimedState).1).2 = none ∧
    (indexRepo oracleChunkFail 4
        (indexRepo oracleChunkFail 3 claimedState).1).1.repo.status = .completed :=
  second_run_idempotent_spec oracleChunkFail 3 4 claimedState "sha1" ["main.go"]
    rfl rfl rfl rfl
    (by
      intro p hp
      refine ⟨⟨_, rfl⟩, ⟨_, rfl⟩, ?_, fun n => rfl, fun ts => ⟨_, rfl⟩, rfl, rfl⟩
      intro cs hcs
      exact Except.noConfusion hcs)

end Semantix
